import Mathlib

/-!
Verification of the raspi-monitor repository's core logic against its
specification.

The development shallowly embeds three parts of the source:

* `trim_heartbeat_log.js` — the log retention filter (`trimHeartbeatLog`):
  a line scanner keyed on the header regex
  `/at\s+(\d{4}-\d{2}-\d{2}\s+\d{2}:\d{2}:\d{2})\s+UTC/`, an epoch-millisecond
  cutoff, a trailer pair, and a write-temp-then-rename replacement.
* the heartbeat reporter script — `checkErrorLog` (error-log scanning and
  truncation) and `updateGithubFile` / `main` (the GitHub upsert with sha
  handling and the bounded retry loop).

Machine integers do not occur; JavaScript numbers here are integral epoch
milliseconds, modelled as `Int` (timestamps may predate 1970), and counts
modelled as `Nat`.  Date parsing of `new Date("YYYY-MM-DD HH:MM:SS UTC")`
is modelled after V8's parser: the space separator keeps the string out of
the ES5 ISO grammar, so the day components are resolved by the legacy
(Safari/KJS-compatible) rules — month-day-year reordering when the leading
component is day-like (1..31), the two-digit-year window (+2000/+1900),
`MakeDay` rollover of days past the month's end, and an admissible
`24:00:00` hour.  Formatting via `Date.prototype.toISOString` is proleptic
Gregorian arithmetic, and the process clock is UTC (the scripts work
exclusively in UTC).
-/

set_option maxRecDepth 16384

namespace RaspiMonitor

/-! ## Characters and digits

`\d` in a JavaScript regex is exactly `[0-9]`; `\s` is the ECMAScript
whitespace/line-terminator class, reproduced code point by code point. -/

/-- ECMAScript `\s`: tab through carriage return, space, NBSP, and the
Unicode space separators recognised by JavaScript regexes. -/
def isJsWs (c : Char) : Bool :=
  c.val == 0x20 || c.val == 0x09 || c.val == 0x0A || c.val == 0x0B ||
  c.val == 0x0C || c.val == 0x0D || c.val == 0xA0 || c.val == 0x1680 ||
  (0x2000 ≤ c.val && c.val ≤ 0x200A) || c.val == 0x2028 || c.val == 0x2029 ||
  c.val == 0x202F || c.val == 0x205F || c.val == 0x3000 || c.val == 0xFEFF

/-- Numeric value of an ASCII digit character. -/
def digitVal (c : Char) : Nat := c.toNat - '0'.toNat

/-- The six numeric fields captured by the header pattern
`\d{4}-\d{2}-\d{2}\s+\d{2}:\d{2}:\d{2}`. -/
structure TsFields where
  year : Nat
  month : Nat
  day : Nat
  hour : Nat
  minute : Nat
  second : Nat
deriving DecidableEq, Repr

/-- Read exactly two ASCII digits (regex `\d{2}`). -/
def take2 : List Char → Option (Nat × List Char)
  | c1 :: c2 :: rest =>
      if c1.isDigit && c2.isDigit then
        some (digitVal c1 * 10 + digitVal c2, rest)
      else none
  | _ => none

/-- Read exactly four ASCII digits (regex `\d{4}`). -/
def take4 : List Char → Option (Nat × List Char)
  | c1 :: c2 :: c3 :: c4 :: rest =>
      if c1.isDigit && c2.isDigit && c3.isDigit && c4.isDigit then
        some (digitVal c1 * 1000 + digitVal c2 * 100 + digitVal c3 * 10 +
              digitVal c4, rest)
      else none
  | _ => none

/-- Require a literal character. -/
def expectChar (c : Char) : List Char → Option (List Char)
  | c' :: rest => if c' == c then some rest else none
  | [] => none

/-- Regex `\s+`: at least one whitespace character, consumed greedily.
The greedy consumption is equivalent to the regex here because every token
following `\s+` in the header pattern (`\d`, `U`) is not whitespace. -/
def skipWs1 : List Char → Option (List Char)
  | c :: rest => if isJsWs c then some (rest.dropWhile isJsWs) else none
  | [] => none

/-- Attempt the header pattern `at\s+(\d{4}-\d{2}-\d{2}\s+\d{2}:\d{2}:\d{2})\s+UTC`
anchored at the head of the character list, returning the captured fields. -/
def matchHeaderAt (cs : List Char) : Option TsFields :=
  match cs with
  | 'a' :: 't' :: rest => do
      let rest ← skipWs1 rest
      let (y, rest) ← take4 rest
      let rest ← expectChar '-' rest
      let (mo, rest) ← take2 rest
      let rest ← expectChar '-' rest
      let (d, rest) ← take2 rest
      let rest ← skipWs1 rest
      let (h, rest) ← take2 rest
      let rest ← expectChar ':' rest
      let (mi, rest) ← take2 rest
      let rest ← expectChar ':' rest
      let (s, rest) ← take2 rest
      let rest ← skipWs1 rest
      let rest ← expectChar 'U' rest
      let rest ← expectChar 'T' rest
      let _ ← expectChar 'C' rest
      pure ⟨y, mo, d, h, mi, s⟩
  | _ => none

/-- Unanchored, leftmost-match search: `line.match(/at\s+(...)\s+UTC/)`.
Scanning every start offset in order reproduces the regex engine's leftmost
match; within one offset the pattern is deterministic (backtracking into a
shorter `\s+` can never succeed, as argued at `skipWs1`). -/
def headerScan : List Char → Option TsFields
  | [] => none
  | c :: rest =>
      match matchHeaderAt (c :: rest) with
      | some f => some f
      | none => headerScan rest

/-- The call `line.match(/at\s+(\d{4}-\d{2}-\d{2}\s+\d{2}:\d{2}:\d{2})\s+UTC/)`,
reduced to the captured timestamp fields (the only part the script uses). -/
def headerMatch (line : String) : Option TsFields :=
  headerScan line.data

/-! ## Calendar arithmetic (ECMAScript MakeDay / MakeTime over UTC) -/

/-- Proleptic Gregorian leap-year rule, as used by ECMAScript `Date`. -/
def isLeapYear (y : Nat) : Bool :=
  (y % 4 == 0 && y % 100 != 0) || y % 400 == 0

/-- Days in month `m` (1-based) of year `y`; months outside 1..12 never
reach this table through a validated timestamp. -/
def daysInMonth (y m : Nat) : Nat :=
  if m == 2 then (if isLeapYear y then 29 else 28)
  else if m == 4 || m == 6 || m == 9 || m == 11 then 30
  else 31

/-- Days in year `y`. -/
def daysInYear (y : Nat) : Nat := if isLeapYear y then 366 else 365

/-- Days contributed by the months strictly before month `m` of year `y`. -/
def monthsBefore (y : Nat) : Nat → Nat
  | 0 => 0
  | 1 => 0
  | m + 1 => monthsBefore y m + daysInMonth y m

/-- Days from 1970-01-01 to the start of year `y ≥ 1970`
(0 for years at or before 1970). -/
def yearsFrom1970 : Nat → Nat
  | 0 => 0
  | y + 1 => if y + 1 ≤ 1970 then 0 else daysInYear y + yearsFrom1970 y

/-- Sum of `daysInYear` over `k` consecutive years starting at `y`. -/
def yearsSpan : Nat → Nat → Nat
  | 0, _ => 0
  | k + 1, y => daysInYear y + yearsSpan k (y + 1)

/-- Days from the start of year `y < 1970` up to 1970-01-01
(0 for years at or after 1970). -/
def yearsTo1970 (y : Nat) : Nat := yearsSpan (1970 - y) y

/-- ECMAScript MakeDay: days from the epoch to civil date `y-m-d`
(1-based month and day). -/
def civilToDays (y m d : Nat) : Int :=
  (if 1970 ≤ y then (yearsFrom1970 y : Int) else -(yearsTo1970 y : Int)) +
    (monthsBefore y m : Int) + ((d - 1 : Nat) : Int)

/-- Day-component resolution of V8's legacy date parser for a string of the
shape `YYYY-MM-DD hh:mm:ss UTC`.  The space separator keeps the string out
of the ES5 ISO grammar, so `DayComposer::Write` runs without the ISO flag:
the three numbers are read in year-month-day order only when the leading
component is not day-like; a leading component in 1..31 is taken as a month
(KJS-compatible month-day-year ordering), making the third component the
year.  Returns `(year, month, day)` before the two-digit-year window. -/
def legacyYmd (f : TsFields) : Nat × Nat × Nat :=
  if 1 ≤ f.year ∧ f.year ≤ 31 then (f.day, f.year, f.month)
  else (f.year, f.month, f.day)

/-- Two-digit-year window of the legacy parser (applied because the string
is not ISO): 0..49 maps into 2000..2049 and 50..99 into 1950..1999. -/
def windowYear (y : Nat) : Nat :=
  if y ≤ 49 then 2000 + y else if y ≤ 99 then 1900 + y else y

/-- Semantics of `new Date("YYYY-MM-DD HH:MM:SS UTC").getTime()` under V8's
legacy parser (the space separator and `UTC` suffix rule out the strict ISO
path).  After the `legacyYmd` reordering and the `windowYear` remap, the
month must be 1..12 and the day 1..31 — but a day beyond the month's length
is NOT rejected: `MakeDay` rolls it over into the following month
(`2024-02-30` becomes `2024-03-01`), which the model renders as the days to
the first of the month plus `day - 1`.  The time must be a valid
`hh:mm:ss`, with `24:00:00` additionally allowed (the next day's midnight).
Everything else is an Invalid Date, i.e. `NaN`, modelled as `none`.
(The whitespace matched by `\s+` inside the capture is abstracted away:
the resolution depends only on the six numeric fields.) -/
def tsToMs (f : TsFields) : Option Int :=
  let y := windowYear (legacyYmd f).1
  let m := (legacyYmd f).2.1
  let d := (legacyYmd f).2.2
  if (1 ≤ m ∧ m ≤ 12) ∧ (1 ≤ d ∧ d ≤ 31) ∧
      ((f.hour ≤ 23 ∧ f.minute ≤ 59 ∧ f.second ≤ 59) ∨
        (f.hour = 24 ∧ f.minute = 0 ∧ f.second = 0)) then
    some (86400000 * (civilToDays y m 1 + ((d - 1 : Nat) : Int)) +
          1000 * (3600 * f.hour + 60 * f.minute + f.second))
  else none

/-- Year-splitting loop, with structural fuel.  Each iteration consumes at
least 365 days, so fuel `d` can never be exhausted (see `yearLoopGo_spec`). -/
def yearLoopGo : Nat → Nat → Nat → Nat × Nat
  | 0, y, d => (y, d)
  | fuel + 1, y, d =>
      if daysInYear y ≤ d then yearLoopGo fuel (y + 1) (d - daysInYear y)
      else (y, d)

/-- Split a day count (days since the epoch) into year and day-of-year. -/
def yearLoop (y d : Nat) : Nat × Nat := yearLoopGo d y d

/-- Month-splitting loop, with structural fuel.  Each iteration consumes at
least 28 days, so fuel `r` can never be exhausted. -/
def monthLoopGo : Nat → Nat → Nat → Nat → Nat × Nat
  | 0, _, m, r => (m, r + 1)
  | fuel + 1, y, m, r =>
      if daysInMonth y m ≤ r then monthLoopGo fuel y (m + 1) (r - daysInMonth y m)
      else (m, r + 1)

/-- Split a day-of-year into (1-based) month and day. -/
def monthLoop (y m r : Nat) : Nat × Nat := monthLoopGo r y m r

/-- The calendar fields rendered by
`new Date(n).toISOString().replace('T', ' ').substring(0, 19)`
for a non-negative epoch-millisecond count `n`. -/
def formatFields (n : Nat) : TsFields :=
  let secs := n / 1000
  let days := secs / 86400
  let sod := secs % 86400
  let yd := yearLoop 1970 days
  let md := monthLoop yd.1 1 yd.2
  ⟨yd.1, md.1, md.2, sod / 3600, sod % 3600 / 60, sod % 60⟩

/-- Two-digit zero-padded decimal rendering (for values below 100). -/
def pad2 (n : Nat) : String :=
  ⟨[Nat.digitChar (n / 10 % 10), Nat.digitChar (n % 10)]⟩

/-- Four-digit zero-padded decimal rendering (for values below 10000). -/
def pad4 (n : Nat) : String :=
  ⟨[Nat.digitChar (n / 1000 % 10), Nat.digitChar (n / 100 % 10),
    Nat.digitChar (n / 10 % 10), Nat.digitChar (n % 10)]⟩

/-- Render timestamp fields as `YYYY-MM-DD HH:MM:SS`. -/
def renderTs (f : TsFields) : String :=
  pad4 f.year ++ "-" ++ pad2 f.month ++ "-" ++ pad2 f.day ++ " " ++
  pad2 f.hour ++ ":" ++ pad2 f.minute ++ ":" ++ pad2 f.second

/-- Rendering `now.toISOString().replace('T', ' ').substring(0, 19)` — the maintenance
timestamp written into the trailer.  The script's clock `Date.now()` is
non-negative; negative inputs are clamped (out of the modelled range). -/
def formatTimestamp (ms : Int) : String :=
  renderTs (formatFields ms.toNat)

/-! ## The log retention filter (`trimHeartbeatLog` in trim_heartbeat_log.js) -/

/-- The scanner state of the line loop: `keepCurrentBlock` and the
accumulated `output` array. -/
structure TrimState where
  keepCurrentBlock : Bool
  output : List String
deriving DecidableEq, Repr

/-- One iteration of the `for (const line of lines)` loop.  A header line is
kept (and opens a block) iff its timestamp parses and is `>= cutoff`; a header
whose capture fails to parse closes the block and is dropped (`NaN >= cutoff`
is false; the `catch` arm behaves identically); a non-header line is kept iff
the current block is kept. -/
def processLine (cutoff : Int) (st : TrimState) (line : String) : TrimState :=
  match headerMatch line with
  | some f =>
      match tsToMs f with
      | some ms =>
          if cutoff ≤ ms then ⟨true, st.output ++ [line]⟩
          else ⟨false, st.output⟩
      | none => ⟨false, st.output⟩
  | none =>
      if st.keepCurrentBlock then ⟨st.keepCurrentBlock, st.output ++ [line]⟩
      else st

/-- The whole line loop, from the initial state
(`keepCurrentBlock = false`, empty output). -/
def trimLines (cutoff : Int) (lines : List String) : List String :=
  (lines.foldl (processLine cutoff) ⟨false, []⟩).output

/-- Semantics of `cutoffDate.setDate(cutoffDate.getDate() - daysToKeep)`: same wall-clock
time `daysToKeep` calendar days earlier.  With the process clock in UTC
(fixed offset, no DST) this is exactly `now - daysToKeep` days in
milliseconds. -/
def cutoffMs (now : Int) (daysToKeep : Nat) : Int :=
  now - (daysToKeep : Int) * 86400000

/-- First trailer line: the maintenance record (itself a header line). -/
def trailer1 (now : Int) : String :=
  "Heartbeat log maintenance successful at " ++ formatTimestamp now ++ " UTC"

/-- Second trailer line: the applied retention window. -/
def trailer2 (daysToKeep : Nat) : String :=
  "Removed entries older than " ++ Nat.repr daysToKeep ++ " days"

/-- The content-level behaviour of `trimHeartbeatLog`: filter the lines of
the log against the cutoff, then append the two trailer lines. -/
def trimHeartbeatLog (now : Int) (daysToKeep : Nat) (lines : List String) :
    List String :=
  trimLines (cutoffMs now daysToKeep) lines ++
    [trailer1 now, trailer2 daysToKeep]

/-- Analysis helper for idempotence: the value of `keepCurrentBlock` after
scanning `ls` starting from flag `b` (the state component of the line loop,
with the output projected away). -/
def keepAfter (cutoff : Int) (b : Bool) : List String → Bool
  | [] => b
  | l :: ls =>
      match headerMatch l with
      | some f =>
          keepAfter cutoff
            (match tsToMs f with
             | some ms => decide (cutoff ≤ ms)
             | none => false) ls
      | none => keepAfter cutoff b ls

/-- Analysis helper for idempotence: scanning `ls` from flag `b` keeps every
line of `ls` (each header parses to a timestamp within the window, and each
non-header line sits in a kept block). -/
def allKept (cutoff : Int) (b : Bool) : List String → Bool
  | [] => true
  | l :: ls =>
      match headerMatch l with
      | some f =>
          match tsToMs f with
          | some ms => decide (cutoff ≤ ms) && allKept cutoff true ls
          | none => false
      | none => b && allKept cutoff b ls

/-! ## Atomic replacement (lines 86-88 of trim_heartbeat_log.js)

`fs.writeFileSync(tempFile, ...)` followed by `fs.renameSync(tempFile,
logFile)`.  A plain file write is not atomic: a concurrent reader may see
any prefix of the data written so far.  The rename, by contrast, is a single
atomic step (the POSIX guarantee the script relies on).  The model exposes
every intermediate state of the run as a pair
(content of `logFile.tmp`, content of `logFile`), with `none` for a missing
file. -/

/-- All filesystem states observable during the write-then-rename sequence,
in order: the initial state, one state per prefix of the temp-file write,
and the single post-rename state. -/
def replaceStates (oldTmp oldLog : Option String) (newContent : String) :
    List (Option String × Option String) :=
  (oldTmp, oldLog) ::
    ((List.range (newContent.length + 1)).map
      (fun k => (some (newContent.take k), oldLog))) ++
    [(none, some newContent)]

/-! ## The error-log scanner (`checkErrorLog` in the heartbeat script)

The filesystem is abstracted as the directory listing `files`, the compiled
config regex as its test `test` and its date key
`a => a.match(p)[1] ++ "-" ++ a.match(p)[2] ++ "-" ++ a.match(p)[3]`
as `key`, and file contents as `contentOf` (bytes modelled as characters;
sizes and 500-byte reads become lengths and `String.take`). -/

/-- The record returned by `checkErrorLog`. -/
structure ErrorLogStatus where
  has_error : Bool
  message : String
  latest_log : Option String
  log_content : Option String
deriving DecidableEq, Repr

/-- The function `checkErrorLog` (success path: the directory listing succeeded).  Filter
the listing by the pattern; if nothing matches, report no error; otherwise
sort matching names by descending date key (V8's stable `Array.sort` with
comparator `dateB.localeCompare(dateA)`), pick the first, and classify by
its size, previewing at most the first 500 bytes with `...` appended when
truncated. -/
def checkErrorLog (files : List String) (test : String → Bool)
    (key : String → String) (contentOf : String → String) : ErrorLogStatus :=
  let errorLogFiles := files.filter test
  match errorLogFiles.mergeSort (fun a b => !decide (key a < key b)) with
  | [] =>
      { has_error := false, message := "No error logs found",
        latest_log := none, log_content := none }
  | latestLogFile :: _ =>
      let c := contentOf latestLogFile
      let fileSize := c.length
      let logContent :=
        c.take (min 500 fileSize) ++ (if fileSize > 500 then "..." else "")
      { has_error := fileSize > 0
        message := if fileSize > 0 then
            "Error log contains " ++ Nat.repr fileSize ++ " bytes"
          else "Error log is empty"
        latest_log := some latestLogFile
        log_content := if fileSize > 0 then some logContent else none }

/-! ## The status publisher (`updateGithubFile` and `main`)

An HTTPS round trip either resolves with a status code and parsed body or
rejects (network error, timeout, abort); the body's `sha` field is either a
string or absent (`undefined`). -/

/-- The resolved value of `httpsRequest`: status code and the `sha` field of
the parsed response body. -/
structure HttpResponse where
  statusCode : Nat
  sha : Option String
deriving DecidableEq, Repr

/-- Outcome of one `httpsRequest` call: resolution or rejection. -/
def HttpOutcome : Type := Except String HttpResponse

/-- JavaScript truthiness of the `sha` variable (`null`, `undefined` and
`""` are falsy). -/
def jsTruthy : Option String → Bool
  | none => false
  | some s => !(s == "")

/-- The sha extracted by the GET phase: present only when the fetch resolved
with status 200 (`if (response.statusCode === 200) sha = response.data.sha`);
a rejected fetch is swallowed by the inner catch, leaving `sha = null`. -/
def fetchedSha : HttpOutcome → Option String
  | Except.error _ => none
  | Except.ok r => if r.statusCode == 200 then r.sha else none

/-- The JSON body of the PUT request. -/
structure UpdateRequest where
  message : String
  content : String
  encoding : String
  sha : Option String
deriving DecidableEq, Repr

/-- Build the PUT body from the sha variable: commit message by truthiness,
and `updateData.sha = sha` only when `sha` is truthy. -/
def buildUpdateData (sha : Option String) (content : String) : UpdateRequest :=
  { message := if jsTruthy sha then "Update heartbeat status"
      else "Create heartbeat status file"
    content := content
    encoding := "base64"
    sha := if jsTruthy sha then sha else none }

/-- The PUT request `updateGithubFile` sends, as a function of the GET
outcome and the (base64) content. -/
def sentRequest (fetchOutcome : HttpOutcome) (content : String) :
    UpdateRequest :=
  buildUpdateData (fetchedSha fetchOutcome) content

/-- The body of `updateGithubFile` inside its outer `try`: fetch (inner
try/catch), build the PUT body, send it; a rejected PUT propagates as an
exception to the outer catch. -/
def updateGithubFileTry (fetchOutcome putOutcome : HttpOutcome)
    (content : String) : Except String Bool :=
  let sha := fetchedSha fetchOutcome
  let _updateData := buildUpdateData sha content
  match putOutcome with
  | Except.ok r => Except.ok (r.statusCode == 200 || r.statusCode == 201)
  | Except.error e => Except.error e

/-- The function `updateGithubFile`: the outer catch converts any exception into the
failure boolean (`console.error(...); return false`). -/
def updateGithubFile (fetchOutcome putOutcome : HttpOutcome)
    (content : String) : Bool :=
  match updateGithubFileTry fetchOutcome putOutcome content with
  | Except.ok b => b
  | Except.error _ => false

/-- The retry loop of `main` over a given attempt list:  each failed attempt
appends its backoff sleep `i * 2000` milliseconds and continues; the first
success stops the loop.  Returns the final success flag and the performed
sleeps in order. -/
def retryGo (tryAt : Nat → Bool) : List Nat → List Nat → Bool × List Nat
  | [], sleeps => (false, sleeps)
  | i :: rest, sleeps =>
      if tryAt i then (true, sleeps)
      else retryGo tryAt rest (sleeps ++ [i * 2000])

/-- The upsert loop of `main`: `attempts = 3`, attempts numbered 1..3. -/
def mainRetry (tryAt : Nat → Bool) : Bool × List Nat :=
  retryGo tryAt [1, 2, 3] []

/-! # Theorems -/

/-- Helper: a header line whose timestamp parses is processed by pushing it
and opening the block iff the timestamp is within the window. -/
theorem processLine_header (cutoff : Int) (st : TrimState) (line : String)
    (f : TsFields) (t : Int) (hm : headerMatch line = some f)
    (ht : tsToMs f = some t) :
    processLine cutoff st line =
      if cutoff ≤ t then ⟨true, st.output ++ [line]⟩ else ⟨false, st.output⟩ := by
  unfold processLine
  simp only [hm, ht]

/-- Helper: a non-header line is kept iff the current block is kept, and the
flag is unchanged. -/
theorem processLine_nonheader (cutoff : Int) (st : TrimState) (line : String)
    (hm : headerMatch line = none) :
    processLine cutoff st line =
      if st.keepCurrentBlock then ⟨st.keepCurrentBlock, st.output ++ [line]⟩
      else st := by
  unfold processLine
  rw [hm]

/-- Claim C1: a line with a parseable header timestamp `t` is kept by the
filter, with the block opened, if and only if `t >= cutoff`, where
`cutoff = now - retentionDays` by calendar-day subtraction; in particular a
timestamp exactly equal to the cutoff is kept. -/
theorem C1_header_kept_iff_cutoff (now : Int) (daysToKeep : Nat)
    (st : TrimState) (line : String) (f : TsFields) (t : Int)
    (hm : headerMatch line = some f) (ht : tsToMs f = some t) :
    ((processLine (cutoffMs now daysToKeep) st line).output =
        st.output ++ [line] ∧
      (processLine (cutoffMs now daysToKeep) st line).keepCurrentBlock = true
      ↔ cutoffMs now daysToKeep ≤ t) ∧
    (t = cutoffMs now daysToKeep →
      (processLine (cutoffMs now daysToKeep) st line).output =
        st.output ++ [line]) := by
  rw [processLine_header (cutoffMs now daysToKeep) st line f t hm ht]
  by_cases hc : cutoffMs now daysToKeep ≤ t
  · simp [hc]
  · simp [hc]
    omega

/-- Witness for C1 at the exact boundary: `now` is 1000 ms, retention 0
days, and the header timestamp is 1970-01-01 00:00:01 UTC, i.e. exactly the
cutoff; the line is kept. -/
theorem C1_header_kept_iff_cutoff_witness :
    headerMatch "Heartbeat update successful at 1970-01-01 00:00:01 UTC" =
      some ⟨1970, 1, 1, 0, 0, 1⟩ ∧
    tsToMs ⟨1970, 1, 1, 0, 0, 1⟩ = some 1000 ∧
    (((processLine (cutoffMs 1000 0) ⟨false, []⟩
        "Heartbeat update successful at 1970-01-01 00:00:01 UTC").output =
        [] ++ ["Heartbeat update successful at 1970-01-01 00:00:01 UTC"] ∧
      (processLine (cutoffMs 1000 0) ⟨false, []⟩
        "Heartbeat update successful at 1970-01-01 00:00:01 UTC").keepCurrentBlock
        = true ↔ cutoffMs 1000 0 ≤ 1000) ∧
     (1000 = cutoffMs 1000 0 →
      (processLine (cutoffMs 1000 0) ⟨false, []⟩
        "Heartbeat update successful at 1970-01-01 00:00:01 UTC").output =
        [] ++ ["Heartbeat update successful at 1970-01-01 00:00:01 UTC"])) :=
  ⟨by decide, by decide,
   C1_header_kept_iff_cutoff 1000 0 ⟨false, []⟩
     "Heartbeat update successful at 1970-01-01 00:00:01 UTC"
     ⟨1970, 1, 1, 0, 0, 1⟩ 1000 (by decide) (by decide)⟩

/-- Helper: a run of non-header lines starting from a closed block leaves
the state unchanged (every such line is dropped). -/
theorem foldl_nonheader (cutoff : Int) (pre : List String) (out : List String)
    (h : ∀ l ∈ pre, headerMatch l = none) :
    pre.foldl (processLine cutoff) ⟨false, out⟩ = ⟨false, out⟩ := by
  induction pre with
  | nil => rfl
  | cons l ls ih =>
      have hl : headerMatch l = none := h l (by simp)
      have hrest : ∀ l' ∈ ls, headerMatch l' = none := by
        intro l' hl'; exact h l' (by simp [hl'])
      simp only [List.foldl_cons]
      rw [processLine_nonheader cutoff ⟨false, out⟩ l hl]
      simpa using ih hrest

/-- Claim C2: a non-header line is kept iff the most recently seen header
was kept (the `keepBlock` flag), and any non-header lines before the first
header of the file are always dropped, because the flag starts false. -/
theorem C2_continuation_follows_block (cutoff : Int) (line : String)
    (hline : headerMatch line = none) :
    (∀ st : TrimState, processLine cutoff st line =
      if st.keepCurrentBlock then ⟨st.keepCurrentBlock, st.output ++ [line]⟩
      else st) ∧
    (∀ pre rest : List String, (∀ l ∈ pre, headerMatch l = none) →
      trimLines cutoff (pre ++ rest) = trimLines cutoff rest) := by
  constructor
  · intro st
    exact processLine_nonheader cutoff st line hline
  · intro pre rest hpre
    unfold trimLines
    rw [List.foldl_append, foldl_nonheader cutoff pre [] hpre]

/-- Witness for C2: with the block open the non-header line is appended;
a leading non-header line before any header is dropped. -/
theorem C2_continuation_follows_block_witness :
    headerMatch "  retrying in 2000 ms" = none ∧
    processLine 0 ⟨true, ["h"]⟩ "  retrying in 2000 ms" =
      (if (⟨true, ["h"]⟩ : TrimState).keepCurrentBlock then
        ⟨true, ["h"] ++ ["  retrying in 2000 ms"]⟩ else ⟨true, ["h"]⟩) ∧
    trimLines 0 (["  retrying in 2000 ms"] ++ []) = trimLines 0 [] :=
  ⟨by decide,
   (C2_continuation_follows_block 0 "  retrying in 2000 ms" (by decide)).1
     ⟨true, ["h"]⟩,
   (C2_continuation_follows_block 0 "  retrying in 2000 ms" (by decide)).2
     ["  retrying in 2000 ms"] [] (by decide)⟩

/-- Counterexample to claim C3 as stated: the line `at banana UTC` does not
match the header pattern (the capture requires digits), so the filter does
not treat it as an expired entry: with an open block it is kept, and the
flag is not set to false. -/
theorem C3_counterexample :
    processLine 0 ⟨true, []⟩ "at banana UTC" = ⟨true, ["at banana UTC"]⟩ ∧
    (processLine 0 ⟨true, []⟩ "at banana UTC").output ≠ [] ∧
    (processLine 0 ⟨true, []⟩ "at banana UTC").keepCurrentBlock ≠ false := by
  decide

/-- Fidelity of `tsToMs` to V8's lenient day handling: a day past the end
of the month is not an Invalid Date — `MakeDay` rolls it over, so
`2024-02-30` denotes the same instant as `2024-03-01` (1709251200000 ms).
Such headers are therefore decided by the window like any other, never
treated as unparseable. -/
theorem tsToMs_day_rollover :
    tsToMs ⟨2024, 2, 30, 0, 0, 0⟩ = tsToMs ⟨2024, 3, 1, 0, 0, 0⟩ ∧
    tsToMs ⟨2024, 2, 30, 0, 0, 0⟩ = some 1709251200000 := by
  decide

/-- Fidelity of `tsToMs` to V8's legacy component ordering: a day-like
leading component (1..31) switches the reading to month-day-year with the
two-digit-year window, so `0012-10-20` denotes 2020-12-10, not year 12. -/
theorem tsToMs_mdy_window :
    tsToMs ⟨12, 10, 20, 0, 0, 0⟩ = tsToMs ⟨2020, 12, 10, 0, 0, 0⟩ ∧
    tsToMs ⟨12, 10, 20, 0, 0, 0⟩ ≠ none := by
  decide

/-- Claim C3 as amended: a line matching the header pattern whose captured
timestamp V8's legacy parser cannot resolve to an instant (for example
month 13) is treated as expired — dropped, with the flag cleared, and no
error propagates (the filter stays a total function); a line such as
`at banana UTC` that does not match the digit pattern is an ordinary
continuation line, kept iff the current block is kept; and a day-overflow
header such as `2024-02-30` is not in the unparseable class at all — the
legacy parser rolls it over to `2024-03-01`, so it is kept or dropped by
the window like any other header. -/
theorem C3_unparseable_header_expired (cutoff : Int) (st : TrimState)
    (line : String) (f : TsFields) (hm : headerMatch line = some f)
    (hp : tsToMs f = none) :
    processLine cutoff st line = ⟨false, st.output⟩ ∧
    (∀ b : Bool, ∀ out : List String,
      processLine cutoff ⟨b, out⟩ "at banana UTC" =
        if b then ⟨b, out ++ ["at banana UTC"]⟩ else ⟨b, out⟩) ∧
    tsToMs ⟨2024, 2, 30, 0, 0, 0⟩ = some 1709251200000 := by
  refine ⟨?_, ?_, by decide⟩
  · unfold processLine
    simp only [hm, hp]
  · intro b out
    have hb : headerMatch "at banana UTC" = none := by decide
    rw [processLine_nonheader cutoff ⟨b, out⟩ "at banana UTC" hb]

/-- Witness for C3 (amended): `at 2024-13-01 00:00:00 UTC` matches the
header pattern but month 13 is invalid, so the entry is dropped and the
block closed. -/
theorem C3_unparseable_header_expired_witness :
    headerMatch "error at 2024-13-01 00:00:00 UTC" =
      some ⟨2024, 13, 1, 0, 0, 0⟩ ∧
    tsToMs ⟨2024, 13, 1, 0, 0, 0⟩ = none ∧
    processLine 0 ⟨true, ["h"]⟩ "error at 2024-13-01 00:00:00 UTC" =
      ⟨false, ["h"]⟩ :=
  ⟨by decide, by decide,
   (C3_unparseable_header_expired 0 ⟨true, ["h"]⟩
     "error at 2024-13-01 00:00:00 UTC" ⟨2024, 13, 1, 0, 0, 0⟩
     (by decide) (by decide)).1⟩

/-- Claim C8: for every input — including the empty file, which
`split('\n')` turns into the single line `""`, and files whose entries are
all pruned — the filter appends exactly the two synthetic trailer lines
(the maintenance record at the current timestamp and the retention-days
record) after the retained lines. -/
theorem C8_trailer_always_appended (now : Int) (daysToKeep : Nat)
    (lines : List String) :
    trimHeartbeatLog now daysToKeep lines =
      trimLines (cutoffMs now daysToKeep) lines ++
        [trailer1 now, trailer2 daysToKeep] ∧
    trimHeartbeatLog now daysToKeep [""] =
      [trailer1 now, trailer2 daysToKeep] := by
  constructor
  · rfl
  · rfl

/-- Helper: the output of the line loop extends the initial output by a
subsequence of the scanned lines. -/
theorem foldl_output_sublist (cutoff : Int) :
    ∀ (ls : List String) (st : TrimState),
      ∃ t, (ls.foldl (processLine cutoff) st).output = st.output ++ t ∧
        t.Sublist ls := by
  intro ls
  induction ls with
  | nil => intro st; exact ⟨[], by simp⟩
  | cons l ls ih =>
      intro st
      obtain ⟨t, ht, hs⟩ := ih (processLine cutoff st l)
      have hout : (processLine cutoff st l).output = st.output ∨
          (processLine cutoff st l).output = st.output ++ [l] := by
        unfold processLine
        rcases headerMatch l with _ | f
        · dsimp only
          split <;> simp
        · dsimp only
          rcases tsToMs f with _ | ms
          · simp
          · dsimp only
            split <;> simp
      rcases hout with h | h
      · exact ⟨t, by simpa [h] using ht, hs.cons l⟩
      · refine ⟨l :: t, ?_, hs.cons₂ l⟩
        rw [List.foldl_cons, ht, h, List.append_assoc]
        rfl

/-- Claim C10: the filter's output minus the two trailer lines is a
subsequence of the input lines — kept lines appear in their original
relative order, unduplicated and unmodified — and the trailer pair is the
only text the filter adds. -/
theorem C10_output_subsequence (now : Int) (daysToKeep : Nat)
    (lines : List String) :
    (trimLines (cutoffMs now daysToKeep) lines).Sublist lines ∧
    trimHeartbeatLog now daysToKeep lines =
      trimLines (cutoffMs now daysToKeep) lines ++
        [trailer1 now, trailer2 daysToKeep] := by
  constructor
  · obtain ⟨t, ht, hs⟩ :=
      foldl_output_sublist (cutoffMs now daysToKeep) lines ⟨false, []⟩
    unfold trimLines
    rw [ht]
    simpa using hs
  · rfl

/-- Claim C5: the error-log scanner returns `has_error=false, latest_log
and log_content null` when nothing matches the pattern; `has_error=false`
with `latest_log` populated and `log_content` null when the selected
matching file is empty; and `has_error=true` with the first at-most-500
bytes, `...`-suffixed iff the size exceeds 500, when it is non-empty; and
in every case `has_error = false` implies `log_content = null`. -/
theorem C5_error_log_classification (files : List String)
    (test : String → Bool) (key : String → String)
    (contentOf : String → String) :
    (files.filter test = [] →
      checkErrorLog files test key contentOf =
        ⟨false, "No error logs found", none, none⟩) ∧
    (∀ n, files.filter test = [n] → (contentOf n).length = 0 →
      checkErrorLog files test key contentOf =
        ⟨false, "Error log is empty", some n, none⟩) ∧
    (∀ n, files.filter test = [n] → (contentOf n).length > 0 →
      checkErrorLog files test key contentOf =
        ⟨true,
         "Error log contains " ++ Nat.repr (contentOf n).length ++ " bytes",
         some n,
         some ((contentOf n).take (min 500 (contentOf n).length) ++
           (if (contentOf n).length > 500 then "..." else ""))⟩) ∧
    ((checkErrorLog files test key contentOf).has_error = false →
      (checkErrorLog files test key contentOf).log_content = none) := by
  refine ⟨?_, ?_, ?_, ?_⟩
  · intro h
    unfold checkErrorLog
    rw [h]
    simp [List.mergeSort_nil]
  · intro n h hz
    unfold checkErrorLog
    rw [h]
    simp [hz]
  · intro n h hz
    unfold checkErrorLog
    rw [h]
    simp [hz]
  · unfold checkErrorLog
    dsimp only
    split
    · intro _
      rfl
    · intro h
      simp only [decide_eq_false_iff_not] at h
      simp [h]

/-- Witness for C5: the three classification scenarios at concrete inputs
(no match; one empty match; one 4-byte match, short of the 500-byte
truncation threshold so no ellipsis is appended). -/
theorem C5_error_log_classification_witness :
    checkErrorLog ["README"] (fun f => f == "app_error.log") id
        (fun _ => "boom") =
      ⟨false, "No error logs found", none, none⟩ ∧
    checkErrorLog ["app_error.log"] (fun f => f == "app_error.log") id
        (fun _ => "") =
      ⟨false, "Error log is empty", some "app_error.log", none⟩ ∧
    checkErrorLog ["app_error.log"] (fun f => f == "app_error.log") id
        (fun _ => "boom") =
      ⟨true, "Error log contains " ++ Nat.repr "boom".length ++ " bytes",
       some "app_error.log",
       some ("boom".take (min 500 "boom".length) ++
         (if "boom".length > 500 then "..." else ""))⟩ :=
  ⟨(C5_error_log_classification ["README"] (fun f => f == "app_error.log")
      id (fun _ => "boom")).1 (by decide),
   (C5_error_log_classification ["app_error.log"]
      (fun f => f == "app_error.log") id (fun _ => "")).2.1
      "app_error.log" (by decide) (by decide),
   (C5_error_log_classification ["app_error.log"]
      (fun f => f == "app_error.log") id (fun _ => "boom")).2.2.1
      "app_error.log" (by decide) (by decide)⟩

/-- Counterexample to claim C6 as stated: a fetch resolving with HTTP 200
and `sha = ""` is a case of "fetch returned 200 with sha=X", yet the write
omits the version token, because the empty string is falsy in JavaScript
(`if (sha) updateData.sha = sha`). -/
theorem C6_counterexample :
    fetchedSha (Except.ok ⟨200, some ""⟩) = some "" ∧
    (sentRequest (Except.ok ⟨200, some ""⟩) "content").sha = none ∧
    (sentRequest (Except.ok ⟨200, some ""⟩) "content").message =
      "Create heartbeat status file" := by
  decide

/-- Claim C6 as amended: a failed or non-200 fetch (404 included) yields a
write request without the version token, as a create; a fetch returning 200
with a non-empty `sha=X` yields a write request carrying `sha=X` (an empty
sha string is falsy in JavaScript and is treated as absent, the write then
proceeding as a create); and a rejected fetch is never a hard error — the
upsert proceeds and can still succeed. -/
theorem C6_upsert_sha_handling (content : String) :
    (∀ e : String, sentRequest (Except.error e) content =
      ⟨"Create heartbeat status file", content, "base64", none⟩) ∧
    (∀ code : Nat, ∀ sha : Option String, code ≠ 200 →
      sentRequest (Except.ok ⟨code, sha⟩) content =
        ⟨"Create heartbeat status file", content, "base64", none⟩) ∧
    (∀ X : String, X ≠ "" →
      sentRequest (Except.ok ⟨200, some X⟩) content =
        ⟨"Update heartbeat status", content, "base64", some X⟩) ∧
    (∀ e : String, updateGithubFile (Except.error e)
        (Except.ok ⟨201, none⟩) content = true) := by
  refine ⟨?_, ?_, ?_, ?_⟩
  · intro e
    rfl
  · intro code sha hcode
    unfold sentRequest fetchedSha buildUpdateData
    simp [hcode, jsTruthy]
  · intro X hX
    unfold sentRequest fetchedSha buildUpdateData jsTruthy
    simp [hX]
  · intro e
    rfl

/-- Witness for C6 (amended): a 404 fetch produces a create request; a 200
fetch with sha `abc123` produces an update request carrying that sha. -/
theorem C6_upsert_sha_handling_witness :
    sentRequest (Except.ok ⟨404, none⟩) "content" =
      ⟨"Create heartbeat status file", "content", "base64", none⟩ ∧
    sentRequest (Except.ok ⟨200, some "abc123"⟩) "content" =
      ⟨"Update heartbeat status", "content", "base64", some "abc123"⟩ ∧
    updateGithubFile (Except.error "ECONNRESET") (Except.ok ⟨201, none⟩)
      "content" = true :=
  ⟨(C6_upsert_sha_handling "content").2.1 404 none (by decide),
   (C6_upsert_sha_handling "content").2.2.1 "abc123" (by decide),
   (C6_upsert_sha_handling "content").2.2.2 "ECONNRESET"⟩

/-- Claim C7: the upsert is attempted up to 3 times, succeeding iff one of
the three attempts succeeds; the sleeps performed between attempts follow
the linear backoff `attempt * 2000` ms (2 s then 4 s between attempts; the
loop also sleeps once more after a final failure); `updateGithubFile`
converts any exception into the failure boolean instead of raising; and the
PUT succeeds exactly on statuses 200 and 201. -/
theorem C7_retry_policy (tryAt : Nat → Bool) :
    (mainRetry tryAt).1 = (tryAt 1 || tryAt 2 || tryAt 3) ∧
    (mainRetry tryAt).2 = (if tryAt 1 then [] else if tryAt 2 then [2000]
      else if tryAt 3 then [2000, 4000] else [2000, 4000, 6000]) ∧
    (∀ fetchOutcome : HttpOutcome, ∀ e content : String,
      updateGithubFile fetchOutcome (Except.error e) content = false) ∧
    (∀ fetchOutcome : HttpOutcome, ∀ content : String, ∀ r : HttpResponse,
      updateGithubFile fetchOutcome (Except.ok r) content =
        (r.statusCode == 200 || r.statusCode == 201)) := by
  refine ⟨?_, ?_, ?_, ?_⟩
  · cases h1 : tryAt 1 <;> cases h2 : tryAt 2 <;> cases h3 : tryAt 3 <;>
      simp [mainRetry, retryGo, h1, h2, h3]
  · cases h1 : tryAt 1 <;> cases h2 : tryAt 2 <;> cases h3 : tryAt 3 <;>
      simp [mainRetry, retryGo, h1, h2, h3]
  · intro fetchOutcome e content
    rfl
  · intro fetchOutcome content r
    rfl

/-- Claim C9: the rewritten log is first written to the temporary file
`logFile.tmp` and then renamed over `logFile` in one atomic step, so every
state observable during the run shows the log either with its old content
or with the complete new content — never a partially-written log.  (The
write's intermediate prefixes are visible only at the temp path; the final
state carries the full new content.) -/
theorem C9_atomic_replacement (oldTmp oldLog : Option String)
    (newContent : String) :
    (∀ st ∈ replaceStates oldTmp oldLog newContent,
      st.2 = oldLog ∨ st.2 = some newContent) ∧
    (none, some newContent) ∈ replaceStates oldTmp oldLog newContent := by
  constructor
  · intro st hst
    unfold replaceStates at hst
    rcases List.mem_cons.mp hst with h | h
    · left; rw [h]
    · rcases List.mem_append.mp h with h | h
      · obtain ⟨k, _, hk⟩ := List.mem_map.mp h
        left
        rw [← hk]
      · right
        rw [List.mem_singleton.mp h]
  · unfold replaceStates
    simp

/-- Witness for C9: a concrete two-character write over an existing log;
the mid-write state exposes only the temp file, and the observed log
contents are limited to the old and the new full content. -/
theorem C9_atomic_replacement_witness :
    ((some "o", some "old") ∈ replaceStates none (some "old") "ok" ∧
      (((some "o", some "old") : Option String × Option String).2 =
          some "old" ∨
        ((some "o", some "old") : Option String × Option String).2 =
          some "ok")) ∧
    (none, some "ok") ∈ replaceStates none (some "old") "ok" := by
  refine ⟨⟨by decide, ?_⟩, (C9_atomic_replacement none (some "old") "ok").2⟩
  exact (C9_atomic_replacement none (some "old") "ok").1
    (some "o", some "old") (by decide)

/-! ## Recognising the trailer lines (towards idempotence)

The maintenance trailer is itself a header line whose timestamp is the
truncated-to-seconds current time, and the retention trailer matches
nothing (it contains no `U`, which the pattern requires).  The lemmas below
establish both facts for symbolic `now` and `daysToKeep`. -/

/-- ASCII digits rendered by `Nat.digitChar` are digits. -/
theorem isDigit_digitChar (n : Nat) : (Nat.digitChar (n % 10)).isDigit = true := by
  have h : n % 10 < 10 := Nat.mod_lt _ (by norm_num)
  revert h
  generalize n % 10 = k
  revert k
  decide

/-- ASCII digits are not ECMAScript whitespace. -/
theorem isJsWs_digitChar (n : Nat) : isJsWs (Nat.digitChar (n % 10)) = false := by
  have h : n % 10 < 10 := Nat.mod_lt _ (by norm_num)
  revert h
  generalize n % 10 = k
  revert k
  decide

/-- The function `digitVal` inverts `Nat.digitChar` on digits. -/
theorem digitVal_digitChar (n : Nat) : digitVal (Nat.digitChar (n % 10)) = n % 10 := by
  have h : n % 10 < 10 := Nat.mod_lt _ (by norm_num)
  revert h
  generalize n % 10 = k
  revert k
  decide

/-- The characters of `pad2`. -/
theorem pad2_data (n : Nat) :
    (pad2 n).data = [Nat.digitChar (n / 10 % 10), Nat.digitChar (n % 10)] := rfl

/-- The characters of `pad4`. -/
theorem pad4_data (n : Nat) :
    (pad4 n).data = [Nat.digitChar (n / 1000 % 10), Nat.digitChar (n / 100 % 10),
      Nat.digitChar (n / 10 % 10), Nat.digitChar (n % 10)] := rfl

/-- Unfolding of the anchored matcher after the literal `at`. -/
theorem matchHeaderAt_at (rest : List Char) :
    matchHeaderAt ('a' :: 't' :: rest) = (do
      let rest ← skipWs1 rest
      let (y, rest) ← take4 rest
      let rest ← expectChar '-' rest
      let (mo, rest) ← take2 rest
      let rest ← expectChar '-' rest
      let (d, rest) ← take2 rest
      let rest ← skipWs1 rest
      let (h, rest) ← take2 rest
      let rest ← expectChar ':' rest
      let (mi, rest) ← take2 rest
      let rest ← expectChar ':' rest
      let (s, rest) ← take2 rest
      let rest ← skipWs1 rest
      let rest ← expectChar 'U' rest
      let rest ← expectChar 'T' rest
      let _ ← expectChar 'C' rest
      pure ⟨y, mo, d, h, mi, s⟩ : Option TsFields) := rfl

/-- A single space followed by a non-whitespace character satisfies `\s+`.
-/
theorem skipWs1_space_cons (c : Char) (cs : List Char) (h : isJsWs c = false) :
    skipWs1 (' ' :: c :: cs) = some (c :: cs) := by
  have hsp : isJsWs ' ' = true := rfl
  simp [skipWs1, hsp, List.dropWhile_cons, h]

/-- Regex `\d{2}` on two rendered digits. -/
theorem take2_digits (a b : Nat) (cs : List Char) :
    take2 (Nat.digitChar (a % 10) :: Nat.digitChar (b % 10) :: cs) =
      some (a % 10 * 10 + b % 10, cs) := by
  simp [take2, isDigit_digitChar, digitVal_digitChar]

/-- Regex `\d{4}` on four rendered digits. -/
theorem take4_digits (a b c d : Nat) (cs : List Char) :
    take4 (Nat.digitChar (a % 10) :: Nat.digitChar (b % 10) ::
      Nat.digitChar (c % 10) :: Nat.digitChar (d % 10) :: cs) =
      some (a % 10 * 1000 + b % 10 * 100 + c % 10 * 10 + d % 10, cs) := by
  simp [take4, isDigit_digitChar, digitVal_digitChar]

/-- The reader `expectChar` accepts its own character. -/
theorem expectChar_cons_self (c : Char) (cs : List Char) :
    expectChar c (c :: cs) = some cs := by
  simp [expectChar]

/-- Definitional bind reduction used to step through the parse chain. -/
theorem optBind_some {A B : Type} (a : A) (f : A → Option B) :
    (some a >>= f) = f a := rfl

set_option maxHeartbeats 1000000 in
/-- The anchored matcher parses `at ` followed by a rendered timestamp and
` UTC`, recovering exactly the rendered fields. -/
theorem matchHeaderAt_render (y mo d h mi s : Nat) (hy : y ≤ 9999)
    (hmo : mo ≤ 99) (hd : d ≤ 99) (hh : h ≤ 99)
    (hmi : mi ≤ 99) (hs : s ≤ 99) :
    matchHeaderAt ('a' :: 't' :: ' ' ::
        ((renderTs ⟨y, mo, d, h, mi, s⟩).data ++ [' ', 'U', 'T', 'C'])) =
      some ⟨y, mo, d, h, mi, s⟩ := by
  have hdata : (renderTs ⟨y, mo, d, h, mi, s⟩).data =
      (pad4 y).data ++ '-' :: (pad2 mo).data ++ '-' :: (pad2 d).data ++
        ' ' :: (pad2 h).data ++ ':' :: (pad2 mi).data ++
        ':' :: (pad2 s).data := by
    simp [renderTs, String.data_append]
  have hU : isJsWs 'U' = false := rfl
  rw [matchHeaderAt_at, hdata, pad2_data, pad2_data, pad2_data,
    pad2_data, pad2_data, pad4_data]
  simp only [List.cons_append, List.append_assoc, List.nil_append]
  simp only [optBind_some, skipWs1_space_cons, isJsWs_digitChar,
    hU, take4_digits, take2_digits, expectChar_cons_self]
  simp only [Option.pure_def, Option.some.injEq, TsFields.mk.injEq]
  refine ⟨?_, ?_, ?_, ?_, ?_, ?_⟩ <;> omega

/-- The scanner skips a block of offsets at which the matcher fails. -/
theorem headerScan_append_none (xs rest : List Char)
    (h : ∀ i < xs.length, matchHeaderAt (List.drop i xs ++ rest) = none) :
    headerScan (xs ++ rest) = headerScan rest := by
  induction xs with
  | nil => rfl
  | cons x xs ih =>
      have h0 : matchHeaderAt (x :: (xs ++ rest)) = none := by
        have h' := h 0 (by simp)
        rwa [List.drop_zero, List.cons_append] at h'
      have hstep : headerScan ((x :: xs) ++ rest) = headerScan (xs ++ rest) := by
        rw [List.cons_append]
        simp [headerScan, h0]
      rw [hstep]
      exact ih (fun i hi => by
        have h' := h (i + 1) (by simp; omega)
        simpa using h')

/-- No offset strictly inside `"Heartbeat log maintenance successful "`
starts a header match (the only `at` in it is followed by `log`, not a
digit string). -/
theorem headerScan_maintenance_head (rest : List Char) :
    headerScan ("Heartbeat log maintenance successful ".data ++ rest) =
      headerScan rest := by
  apply headerScan_append_none
  intro i hi
  rw [show ("Heartbeat log maintenance successful ".data).length = 37 from rfl]
    at hi
  interval_cases i <;> rfl

/-! ## Correctness of the calendar split (`formatFields` inverts MakeDay) -/

/-- Every year has at least 365 days. -/
theorem daysInYear_pos (y : Nat) : 0 < daysInYear y := by
  unfold daysInYear
  split <;> omega

/-- Every month slot has at least 28 days. -/
theorem daysInMonth_pos (y m : Nat) : 0 < daysInMonth y m := by
  unfold daysInMonth
  split
  · split <;> omega
  · split <;> omega

/-- No month slot exceeds 31 days. -/
theorem daysInMonth_le_31 (y m : Nat) : daysInMonth y m ≤ 31 := by
  unfold daysInMonth
  split
  · split <;> omega
  · split <;> omega

/-- Accumulating one more year past 1970. -/
theorem yearsFrom1970_succ (y : Nat) (h : 1970 ≤ y) :
    yearsFrom1970 (y + 1) = yearsFrom1970 y + daysInYear y := by
  show (if y + 1 ≤ 1970 then 0 else daysInYear y + yearsFrom1970 y) = _
  rw [if_neg (by omega)]
  omega

/-- The day count `yearsFrom1970` is monotone. -/
theorem yearsFrom1970_mono : ∀ y y' : Nat, y ≤ y' →
    yearsFrom1970 y ≤ yearsFrom1970 y' := by
  intro y y' h
  induction y' with
  | zero =>
      have hy0 : y = 0 := by omega
      subst hy0
      exact Nat.le_refl _
  | succ k ih =>
      rcases Nat.eq_or_lt_of_le h with rfl | hlt
      · exact Nat.le_refl _
      · have hy : y ≤ k := by omega
        have step : yearsFrom1970 k ≤ yearsFrom1970 (k + 1) := by
          show yearsFrom1970 k ≤
            if k + 1 ≤ 1970 then 0 else daysInYear k + yearsFrom1970 k
          split
          · next hk =>
              have h0 : yearsFrom1970 k = 0 := by
                rcases k with _ | k0
                · rfl
                · show (if k0 + 1 ≤ 1970 then 0
                    else daysInYear k0 + yearsFrom1970 k0) = 0
                  rw [if_pos (by omega)]
              omega
          · omega
        exact Nat.le_trans (ih hy) step

/-- Invariant of the year loop: it splits a day count into a year at or
after the start year and a day-of-year. -/
theorem yearLoopGo_spec : ∀ (fuel d y : Nat), d ≤ fuel → 1970 ≤ y →
    yearsFrom1970 (yearLoopGo fuel y d).1 + (yearLoopGo fuel y d).2 =
        yearsFrom1970 y + d ∧
      (yearLoopGo fuel y d).2 < daysInYear (yearLoopGo fuel y d).1 ∧
      y ≤ (yearLoopGo fuel y d).1 := by
  intro fuel
  induction fuel with
  | zero =>
      intro d y hd hy
      have hd0 : d = 0 := by omega
      subst hd0
      exact ⟨rfl, daysInYear_pos y, Nat.le_refl y⟩
  | succ fuel ih =>
      intro d y hd hy
      have hunf : yearLoopGo (fuel + 1) y d =
          if daysInYear y ≤ d then yearLoopGo fuel (y + 1) (d - daysInYear y)
          else (y, d) := rfl
      rw [hunf]
      split
      · next hle =>
          have hpos := daysInYear_pos y
          have hd' : d - daysInYear y ≤ fuel := by omega
          obtain ⟨h1, h2, h3⟩ := ih (d - daysInYear y) (y + 1) hd' (by omega)
          refine ⟨?_, h2, by omega⟩
          rw [h1, yearsFrom1970_succ y hy]
          omega
      · next hlt =>
          refine ⟨rfl, ?_, Nat.le_refl y⟩
          show d < daysInYear y
          omega

/-- Linear lower bound: at least 365 days per year since 1970. -/
theorem yearsFrom1970_lower (y : Nat) (h : 1970 ≤ y) :
    365 * (y - 1970) ≤ yearsFrom1970 y := by
  induction y, h using Nat.le_induction with
  | base => simp
  | succ k hk ih =>
      rw [yearsFrom1970_succ k hk]
      have : 365 ≤ daysInYear k := by
        unfold daysInYear
        split <;> omega
      omega

/-- Accumulating one more month. -/
theorem monthsBefore_succ (y m : Nat) (h : 1 ≤ m) :
    monthsBefore y (m + 1) = monthsBefore y m + daysInMonth y m := by
  match m, h with
  | m + 1, _ => rfl

/-- The twelve months sum to the year's length. -/
theorem monthsBefore_13 (y : Nat) : monthsBefore y 13 = daysInYear y := by
  rcases hL : isLeapYear y with _ | _ <;>
    simp [monthsBefore, daysInMonth, daysInYear, hL]

/-- Invariant of the month loop: it splits a day-of-year into a valid
1-based month and day. -/
theorem monthLoopGo_spec (y : Nat) : ∀ (fuel m r : Nat), r ≤ fuel → 1 ≤ m →
    m ≤ 12 → monthsBefore y m + r < daysInYear y →
    monthsBefore y (monthLoopGo fuel y m r).1 + ((monthLoopGo fuel y m r).2 - 1) =
        monthsBefore y m + r ∧
      1 ≤ (monthLoopGo fuel y m r).2 ∧
      (monthLoopGo fuel y m r).2 ≤ daysInMonth y (monthLoopGo fuel y m r).1 ∧
      1 ≤ (monthLoopGo fuel y m r).1 ∧ (monthLoopGo fuel y m r).1 ≤ 12 := by
  intro fuel
  induction fuel with
  | zero =>
      intro m r hr hm1 hm12 hbound
      have hr0 : r = 0 := by omega
      subst hr0
      exact ⟨show monthsBefore y m + (1 - 1) = monthsBefore y m + 0 by omega,
        show 1 ≤ 1 by omega,
        show 1 ≤ daysInMonth y m from daysInMonth_pos y m, hm1, hm12⟩
  | succ fuel ih =>
      intro m r hr hm1 hm12 hbound
      have hunf : monthLoopGo (fuel + 1) y m r =
          if daysInMonth y m ≤ r then
            monthLoopGo fuel y (m + 1) (r - daysInMonth y m)
          else (m, r + 1) := rfl
      rw [hunf]
      split
      · next hle =>
          have hpos := daysInMonth_pos y m
          have hm12' : m + 1 ≤ 12 := by
            by_contra hgt
            have hm12eq : m = 12 := by omega
            subst hm12eq
            have h13 := monthsBefore_13 y
            have hs12 : monthsBefore y 13 =
                monthsBefore y 12 + daysInMonth y 12 :=
              monthsBefore_succ y 12 (by omega)
            omega
          have hsucc := monthsBefore_succ y m hm1
          obtain ⟨h1, h2, h3, h4, h5⟩ := ih (m + 1) (r - daysInMonth y m)
            (by omega) (by omega) hm12' (by omega)
          exact ⟨by omega, h2, h3, h4, h5⟩
      · next hlt =>
          exact ⟨show monthsBefore y m + (r + 1 - 1) = monthsBefore y m + r
              by omega,
            show 1 ≤ r + 1 by omega,
            show r + 1 ≤ daysInMonth y m by omega, hm1, hm12⟩

/-- The split `formatFields` produces a valid calendar timestamp whose MakeDay/MakeTime
value is the milliseconds truncated to whole seconds — the round trip behind
"the trailer written at `now` is still inside any window of at least one
day". -/
theorem formatFields_spec (n : Nat) (hn : n ≤ 253234079999999) :
    1970 ≤ (formatFields n).year ∧ (formatFields n).year ≤ 9999 ∧
    1 ≤ (formatFields n).month ∧ (formatFields n).month ≤ 12 ∧
    1 ≤ (formatFields n).day ∧
    (formatFields n).day ≤ daysInMonth (formatFields n).year (formatFields n).month ∧
    (formatFields n).hour ≤ 23 ∧ (formatFields n).minute ≤ 59 ∧
    (formatFields n).second ≤ 59 ∧
    tsToMs (formatFields n) = some ((1000 * (n / 1000) : Nat) : Int) := by
  have hdays : n / 1000 / 86400 ≤ 2930949 := by omega
  have hsod : n / 1000 % 86400 < 86400 := Nat.mod_lt _ (by norm_num)
  obtain ⟨hy1, hy2, hy3⟩ :=
    yearLoopGo_spec (n / 1000 / 86400) (n / 1000 / 86400) 1970
      (Nat.le_refl _) (by omega)
  have hy1970 : yearsFrom1970 1970 = 0 := rfl
  set yl := yearLoopGo (n / 1000 / 86400) 1970 (n / 1000 / 86400) with hyl
  have hyle : yl.1 ≤ 9999 := by
    have hlow := yearsFrom1970_lower yl.1 (by omega)
    omega
  have hbound : monthsBefore yl.1 1 + yl.2 < daysInYear yl.1 := by
    have : monthsBefore yl.1 1 = 0 := rfl
    omega
  obtain ⟨hm1, hm2, hm3, hm4, hm5⟩ :=
    monthLoopGo_spec yl.1 yl.2 1 yl.2 (Nat.le_refl _) (by omega) (by omega)
      hbound
  set ml := monthLoopGo yl.2 yl.1 1 yl.2 with hml
  have hFF : formatFields n =
      ⟨yl.1, ml.1, ml.2, n / 1000 % 86400 / 3600,
        n / 1000 % 86400 % 3600 / 60, n / 1000 % 86400 % 60⟩ := by
    rw [formatFields]
    rfl
  rw [hFF]
  dsimp only
  have hmb1 : monthsBefore yl.1 1 = 0 := rfl
  refine ⟨by omega, hyle, by omega, hm5, by omega, by simpa using hm3,
    by omega, by omega, by omega, ?_⟩
  have hd31 : ml.2 ≤ 31 := by
    have h31 := daysInMonth_le_31 yl.1 ml.1
    have hmd : ml.2 ≤ daysInMonth yl.1 ml.1 := by simpa using hm3
    omega
  have hly : legacyYmd ⟨yl.1, ml.1, ml.2, n / 1000 % 86400 / 3600,
      n / 1000 % 86400 % 3600 / 60, n / 1000 % 86400 % 60⟩ =
      (yl.1, ml.1, ml.2) := by
    show (if 1 ≤ yl.1 ∧ yl.1 ≤ 31 then (ml.2, yl.1, ml.1)
      else (yl.1, ml.1, ml.2)) = (yl.1, ml.1, ml.2)
    rw [if_neg (show ¬(1 ≤ yl.1 ∧ yl.1 ≤ 31) by omega)]
  have hwy : windowYear yl.1 = yl.1 := by
    unfold windowYear
    rw [if_neg (show ¬yl.1 ≤ 49 by omega), if_neg (show ¬yl.1 ≤ 99 by omega)]
  have hvalid : (1 ≤ ml.1 ∧ ml.1 ≤ 12) ∧ (1 ≤ ml.2 ∧ ml.2 ≤ 31) ∧
      ((n / 1000 % 86400 / 3600 ≤ 23 ∧ n / 1000 % 86400 % 3600 / 60 ≤ 59 ∧
          n / 1000 % 86400 % 60 ≤ 59) ∨
        (n / 1000 % 86400 / 3600 = 24 ∧ n / 1000 % 86400 % 3600 / 60 = 0 ∧
          n / 1000 % 86400 % 60 = 0)) :=
    ⟨⟨by omega, hm5⟩, ⟨by omega, hd31⟩,
      Or.inl ⟨by omega, by omega, by omega⟩⟩
  unfold tsToMs
  dsimp only
  rw [hly]
  dsimp only
  rw [hwy, if_pos hvalid]
  have hciv : civilToDays yl.1 ml.1 1 + ((ml.2 - 1 : Nat) : Int) =
      ((n / 1000 / 86400 : Nat) : Int) := by
    show ((if 1970 ≤ yl.1 then ((yearsFrom1970 yl.1 : Nat) : Int)
        else -((yearsTo1970 yl.1 : Nat) : Int)) +
      ((monthsBefore yl.1 ml.1 : Nat) : Int) + (((1 - 1 : Nat) : Nat) : Int)) +
      ((ml.2 - 1 : Nat) : Int) = ((n / 1000 / 86400 : Nat) : Int)
    rw [if_pos (show 1970 ≤ yl.1 by omega)]
    omega
  rw [hciv]
  simp only [Option.some.injEq]
  omega

/-- Every character produced by `Nat.toDigitsCore` in base 10 is a digit. -/
theorem toDigitsCore_digits : ∀ (fuel n : Nat) (acc : List Char),
    (∀ c ∈ acc, c.isDigit = true) →
    ∀ c ∈ Nat.toDigitsCore 10 fuel n acc, c.isDigit = true := by
  intro fuel
  induction fuel with
  | zero => intro n acc hacc; exact hacc
  | succ fuel ih =>
      intro n acc hacc c hc
      have hdig : (Nat.digitChar (n % 10)).isDigit = true := isDigit_digitChar n
      have hacc' : ∀ x ∈ Nat.digitChar (n % 10) :: acc, x.isDigit = true := by
        intro x hx
        rcases List.mem_cons.mp hx with rfl | hx
        · exact hdig
        · exact hacc x hx
      unfold Nat.toDigitsCore at hc
      dsimp only at hc
      split at hc
      · exact hacc' c hc
      · exact ih (n / 10) _ hacc' c hc

/-- Every character of `Nat.repr` is a digit. -/
theorem repr_digits (n : Nat) : ∀ c ∈ (Nat.repr n).data, c.isDigit = true := by
  intro c hc
  have : (Nat.repr n).data = Nat.toDigitsCore 10 (n + 1) n [] := rfl
  rw [this] at hc
  exact toDigitsCore_digits (n + 1) n [] (by intro x hx; cases hx) c hc

/-- The matcher fails on any list that does not begin with `at`. -/
theorem matchHeaderAt_none_of_ne (cs : List Char)
    (h : ∀ rest : List Char, cs ≠ 'a' :: 't' :: rest) :
    matchHeaderAt cs = none := by
  rw [matchHeaderAt.eq_def]
  split
  · next rest => exact absurd rfl (h rest)
  · rfl

/-- The scanner skips any run of digit characters (a digit is never `a`). -/
theorem headerScan_digits_head (ds tail : List Char)
    (h : ∀ c ∈ ds, c.isDigit = true) :
    headerScan (ds ++ tail) = headerScan tail := by
  induction ds with
  | nil => rfl
  | cons c ds ih =>
      have hc : c.isDigit = true := h c (by simp)
      have hmatch : matchHeaderAt (c :: (ds ++ tail)) = none := by
        apply matchHeaderAt_none_of_ne
        intro rest heq
        have hca : c = 'a' := by
          injection heq with h1 _
        rw [hca] at hc
        simp [Char.isDigit] at hc
      have hstep : headerScan ((c :: ds) ++ tail) = headerScan (ds ++ tail) := by
        rw [List.cons_append]
        simp [headerScan, hmatch]
      rw [hstep]
      exact ih (fun x hx => h x (by simp [hx]))

/-- The retention trailer `Removed entries older than N days` never matches
the header pattern, for any `N`. -/
theorem headerMatch_trailer2 (daysToKeep : Nat) :
    headerMatch (trailer2 daysToKeep) = none := by
  unfold headerMatch trailer2
  rw [String.data_append, String.data_append]
  have hpre : "Removed entries older than ".data =
      "Removed entries older than ".data ++ [] := by simp
  rw [List.append_assoc]
  have h1 : headerScan ("Removed entries older than ".data ++
      ((Nat.repr daysToKeep).data ++ " days".data)) =
      headerScan ((Nat.repr daysToKeep).data ++ " days".data) := by
    apply headerScan_append_none
    intro i hi
    rw [show ("Removed entries older than ".data).length = 27 from rfl] at hi
    interval_cases i <;> rfl
  rw [h1, headerScan_digits_head _ _ (repr_digits daysToKeep)]
  rfl

/-- The maintenance trailer written at epoch-millisecond `n` is recognised
as a header line carrying exactly the rendered calendar fields. -/
theorem headerMatch_trailer1 (n : Nat) (hn : n ≤ 253234079999999) :
    headerMatch (trailer1 (n : Int)) = some (formatFields n) := by
  obtain ⟨hb1, hb2, hb3, hb4, hb5, hb6, hb7, hb8, hb9, _⟩ := formatFields_spec n hn
  have htn : ((n : Int)).toNat = n := Int.toNat_natCast n
  have hfmt : formatTimestamp (n : Int) = renderTs (formatFields n) := by
    unfold formatTimestamp
    rw [htn]
  unfold headerMatch trailer1
  rw [hfmt, String.data_append, String.data_append]
  have hsplit : "Heartbeat log maintenance successful at ".data =
      "Heartbeat log maintenance successful ".data ++ ['a', 't', ' '] := rfl
  have hutc : " UTC".data = [' ', 'U', 'T', 'C'] := rfl
  rw [hsplit, hutc]
  simp only [List.append_assoc]
  rw [headerScan_maintenance_head]
  have hrender := matchHeaderAt_render (formatFields n).year
    (formatFields n).month (formatFields n).day (formatFields n).hour
    (formatFields n).minute (formatFields n).second
    hb2 (by omega)
    (by have := daysInMonth_le_31 (formatFields n).year (formatFields n).month
        omega)
    (by omega) (by omega) (by omega)
  have heta : (⟨(formatFields n).year, (formatFields n).month,
      (formatFields n).day, (formatFields n).hour, (formatFields n).minute,
      (formatFields n).second⟩ : TsFields) = formatFields n := rfl
  rw [heta] at hrender
  have hform : (['a', 't', ' '] ++ ((renderTs (formatFields n)).data ++
      [' ', 'U', 'T', 'C'])) = 'a' :: 't' :: ' ' ::
      ((renderTs (formatFields n)).data ++ [' ', 'U', 'T', 'C']) := rfl
  rw [hform]
  simp [headerScan, hrender]

/-- One step of `keepAfter`, exposed as a rewrite. -/
theorem keepAfter_cons (cutoff : Int) (b : Bool) (l : String) (ls : List String) :
    keepAfter cutoff b (l :: ls) =
      match headerMatch l with
      | some f =>
          keepAfter cutoff
            (match tsToMs f with
             | some ms => decide (cutoff ≤ ms)
             | none => false) ls
      | none => keepAfter cutoff b ls := rfl

/-- One step of `allKept`, exposed as a rewrite. -/
theorem allKept_cons (cutoff : Int) (b : Bool) (l : String) (ls : List String) :
    allKept cutoff b (l :: ls) =
      match headerMatch l with
      | some f =>
          match tsToMs f with
          | some ms => decide (cutoff ≤ ms) && allKept cutoff true ls
          | none => false
      | none => b && allKept cutoff b ls := rfl

/-- The flag analysis `keepAfter` distributes over append. -/
theorem keepAfter_append (cutoff : Int) : ∀ (xs ys : List String) (b : Bool),
    keepAfter cutoff b (xs ++ ys) =
      keepAfter cutoff (keepAfter cutoff b xs) ys := by
  intro xs
  induction xs with
  | nil => intro ys b; rfl
  | cons x xs ih =>
      intro ys b
      rw [List.cons_append, keepAfter_cons, keepAfter_cons]
      rcases hl : headerMatch x with _ | f
      · exact ih ys b
      · exact ih ys _

/-- The analysis `allKept` distributes over append, the second part scanned from the
flag left by the first. -/
theorem allKept_append (cutoff : Int) : ∀ (xs ys : List String) (b : Bool),
    allKept cutoff b (xs ++ ys) =
      (allKept cutoff b xs && allKept cutoff (keepAfter cutoff b xs) ys) := by
  intro xs
  induction xs with
  | nil => intro ys b; rfl
  | cons x xs ih =>
      intro ys b
      rw [List.cons_append, allKept_cons, allKept_cons, keepAfter_cons]
      rcases hl : headerMatch x with _ | f
      · dsimp only
        rw [ih ys b, Bool.and_assoc]
      · dsimp only
        rcases ht : tsToMs f with _ | ms
        · rfl
        · dsimp only
          rcases hd : decide (cutoff ≤ ms) with _ | _
          · simp
          · simp only [Bool.true_and]
            exact ih ys true

/-- Scanning a list that the flag analysis declares fully kept appends the
whole list to the output and leaves the analysed flag. -/
theorem foldl_of_allKept (cutoff : Int) : ∀ (ls : List String) (st : TrimState),
    allKept cutoff st.keepCurrentBlock ls = true →
    ls.foldl (processLine cutoff) st =
      ⟨keepAfter cutoff st.keepCurrentBlock ls, st.output ++ ls⟩ := by
  intro ls
  induction ls with
  | nil =>
      intro st _
      show st = ⟨st.keepCurrentBlock, st.output ++ []⟩
      simp
  | cons l ls ih =>
      intro st hall
      rw [List.foldl_cons]
      rw [allKept_cons] at hall
      rcases hl : headerMatch l with _ | f
      · rw [hl] at hall
        dsimp only at hall
        rw [Bool.and_eq_true] at hall
        obtain ⟨hb, hrest⟩ := hall
        rw [processLine_nonheader cutoff st l hl, if_pos hb]
        have hstep := ih ⟨st.keepCurrentBlock, st.output ++ [l]⟩ hrest
        rw [hstep]
        simp [keepAfter_cons, hl, List.append_assoc]
      · rw [hl] at hall
        dsimp only at hall
        rcases ht : tsToMs f with _ | ms
        · rw [ht] at hall
          exact absurd hall (by simp)
        · rw [ht] at hall
          dsimp only at hall
          rw [Bool.and_eq_true] at hall
          obtain ⟨hdec, hrest⟩ := hall
          have hc : cutoff ≤ ms := of_decide_eq_true hdec
          rw [processLine_header cutoff st l f ms hl ht, if_pos hc]
          have hstep := ih ⟨true, st.output ++ [l]⟩ hrest
          rw [hstep]
          simp [keepAfter_cons, hl, ht, hdec, List.append_assoc]

/-- The running invariant of the filter: its accumulated output is always
fully kept when rescanned from a closed block, and whenever the block is
open the rescan flag is open too. -/
theorem trim_run_allKept (cutoff : Int) : ∀ (ls : List String) (st : TrimState),
    allKept cutoff false st.output = true →
    (st.keepCurrentBlock = true → keepAfter cutoff false st.output = true) →
    allKept cutoff false (ls.foldl (processLine cutoff) st).output = true ∧
      ((ls.foldl (processLine cutoff) st).keepCurrentBlock = true →
        keepAfter cutoff false (ls.foldl (processLine cutoff) st).output = true) := by
  intro ls
  induction ls with
  | nil => intro st h1 h2; exact ⟨h1, h2⟩
  | cons l ls ih =>
      intro st h1 h2
      rw [List.foldl_cons]
      rcases hl : headerMatch l with _ | f
      · rw [processLine_nonheader cutoff st l hl]
        rcases hb : st.keepCurrentBlock with _ | _
        · rw [if_neg (by simp)]
          exact ih st h1 h2
        · rw [if_pos rfl]
          have hka : keepAfter cutoff false st.output = true := h2 hb
          apply ih
          · dsimp only
            rw [allKept_append cutoff st.output [l] false, h1, Bool.true_and,
              allKept_cons, hl]
            dsimp only
            rw [hka]
            rfl
          · intro _
            dsimp only
            rw [keepAfter_append cutoff st.output [l] false, hka,
              keepAfter_cons, hl]
            rfl
      · rcases ht : tsToMs f with _ | ms
        · have hP : processLine cutoff st l = ⟨false, st.output⟩ := by
            unfold processLine
            simp only [hl, ht]
          rw [hP]
          apply ih
          · exact h1
          · intro h; simp at h
        · rw [processLine_header cutoff st l f ms hl ht]
          rcases hc : decide (cutoff ≤ ms) with _ | _
          · rw [if_neg (of_decide_eq_false hc)]
            apply ih
            · exact h1
            · intro h; simp at h
          · rw [if_pos (of_decide_eq_true hc)]
            apply ih
            · dsimp only
              rw [allKept_append cutoff st.output [l] false, h1, Bool.true_and,
                allKept_cons, hl]
              dsimp only
              rw [ht]
              dsimp only
              rw [hc]
              rfl
            · intro _
              dsimp only
              rw [keepAfter_append cutoff st.output [l] false,
                keepAfter_cons, hl]
              dsimp only
              rw [ht]
              exact hc

/-- The filtered output rescans as fully kept. -/
theorem allKept_trimLines (cutoff : Int) (lines : List String) :
    allKept cutoff false (trimLines cutoff lines) = true := by
  have := trim_run_allKept cutoff lines ⟨false, []⟩ rfl (by intro h; cases h)
  exact this.1

/-- Counterexample to claim C4 as stated: with `retentionDays = 0` and a
clock of 1 ms past the epoch, the first run's trailer records
`1970-01-01 00:00:00` (`toISOString` truncates to seconds), which parses to
0 ms — strictly before the cutoff `now - 0 days = 1 ms` — so an immediate
second run drops the first run's trailer pair instead of keeping every
line the first run wrote. -/
theorem C4_counterexample :
    trimHeartbeatLog 1 0 [""] =
      ["Heartbeat log maintenance successful at 1970-01-01 00:00:00 UTC",
       "Removed entries older than 0 days"] ∧
    trimHeartbeatLog 1 0 (trimHeartbeatLog 1 0 [""]) =
      ["Heartbeat log maintenance successful at 1970-01-01 00:00:00 UTC",
       "Removed entries older than 0 days"] ∧
    trimHeartbeatLog 1 0 (trimHeartbeatLog 1 0 [""]) ≠
      trimHeartbeatLog 1 0 [""] ++ [trailer1 1, trailer2 0] := by
  decide

/-- Claim C4 as amended: for every retention window of at least one day
(and a clock within the modelled epoch-to-year-9990 range), running the
filter twice in immediate succession yields exactly the first run's output
plus one additional trailer pair — every line written by the first run,
its trailer pair included, survives the second run. -/
theorem C4_idempotent_rerun (now daysToKeep : Nat) (lines : List String)
    (hdays : 1 ≤ daysToKeep) (hnow : now ≤ 253234079999999) :
    trimHeartbeatLog (now : Int) daysToKeep
        (trimHeartbeatLog (now : Int) daysToKeep lines) =
      trimHeartbeatLog (now : Int) daysToKeep lines ++
        [trailer1 (now : Int), trailer2 daysToKeep] := by
  obtain ⟨_, _, _, _, _, _, _, _, _, hts⟩ := formatFields_spec now hnow
  have ht1 : headerMatch (trailer1 (now : Int)) = some (formatFields now) :=
    headerMatch_trailer1 now hnow
  have ht2 : headerMatch (trailer2 daysToKeep) = none :=
    headerMatch_trailer2 daysToKeep
  have hcle : cutoffMs (now : Int) daysToKeep ≤
      ((1000 * (now / 1000) : Nat) : Int) := by
    unfold cutoffMs
    omega
  have hall : allKept (cutoffMs (now : Int) daysToKeep) false
      (trimHeartbeatLog (now : Int) daysToKeep lines) = true := by
    unfold trimHeartbeatLog
    rw [allKept_append _ _ _ false, allKept_trimLines _ lines, Bool.true_and]
    rw [allKept_cons, ht1]
    dsimp only
    rw [hts]
    dsimp only
    rw [decide_eq_true hcle, Bool.true_and]
    rw [allKept_cons, ht2]
    rfl
  have hfold := foldl_of_allKept (cutoffMs (now : Int) daysToKeep)
    (trimHeartbeatLog (now : Int) daysToKeep lines) ⟨false, []⟩ hall
  have htrim : trimLines (cutoffMs (now : Int) daysToKeep)
      (trimHeartbeatLog (now : Int) daysToKeep lines) =
      trimHeartbeatLog (now : Int) daysToKeep lines := by
    unfold trimLines
    rw [hfold]
    simp
  have hdef : trimHeartbeatLog (now : Int) daysToKeep
      (trimHeartbeatLog (now : Int) daysToKeep lines) =
      trimLines (cutoffMs (now : Int) daysToKeep)
        (trimHeartbeatLog (now : Int) daysToKeep lines) ++
      [trailer1 (now : Int), trailer2 daysToKeep] := rfl
  rw [hdef, htrim]

/-- Witness for C4 (amended) at `now = 0`, one retention day, empty line
list: the second run reproduces the first run's output and appends one new
trailer pair. -/
theorem C4_idempotent_rerun_witness :
    (1 ≤ 1 ∧ (0 : Nat) ≤ 253234079999999) ∧
    trimHeartbeatLog ((0 : Nat) : Int) 1
        (trimHeartbeatLog ((0 : Nat) : Int) 1 []) =
      trimHeartbeatLog ((0 : Nat) : Int) 1 [] ++
        [trailer1 ((0 : Nat) : Int), trailer2 1] :=
  ⟨⟨Nat.le_refl 1, by decide⟩,
   C4_idempotent_rerun 0 1 [] (Nat.le_refl 1) (by decide)⟩

end RaspiMonitor
